import Mathlib

/-!
Shallow embedding of the `store` crate of tic-tac-tussle
(`src/store/src/lib.rs`): the game-state data model, the event
vocabulary, the validator, the reducer (`consume`), the player-piece
lookup and the win detector, together with theorems settling the
specification claims about them.

Rust's `HashMap<PlayerId, Player>` is modelled as an association list
`List (Nat × Player)`; `HashMap::insert` replaces in place or appends,
`HashMap::remove` filters the key out, `len` is the list length (the
two agree on key-nodup lists, the only ones a `HashMap` can denote).
Rust panics (`unwrap`, out-of-bounds indexing) are modelled by `consume`
returning `Option GameState`, with `none` standing for a panic.
-/

/-- Player ids are opaque 64-bit identifiers; no arithmetic is performed on
them, so they are modelled as naturals. -/
abbrev PlayerId := Nat

/-- Possible states for a tile in the board. -/
inductive Tile
  | Empty
  | Tic
  | Tac
deriving DecidableEq, Repr

/-- The different stages a game can be in. -/
inductive Stage
  | PreGame
  | InGame
  | Ended
deriving DecidableEq, Repr

/-- Player data: a name and the piece the player places. -/
structure Player where
  name : String
  piece : Tile
deriving DecidableEq, Repr

/-- The various reasons why a game could end. -/
inductive EndGameReason
  | PlayerLeft (player_id : PlayerId)
  | PlayerWon (winner : PlayerId)
deriving DecidableEq, Repr

/-- An event that progresses the game state forward. The tile placed by
`PlaceTile` is derived from the acting player's assigned piece, not carried
in the event. -/
inductive GameEvent
  | BeginGame (goes_first : PlayerId)
  | EndGame (reason : EndGameReason)
  | PlayerJoined (player_id : PlayerId) (name : String)
  | PlayerDisconnected (player_id : PlayerId)
  | PlaceTile (player_id : PlayerId) (i : Nat)
deriving DecidableEq, Repr

/-- The authoritative game state: stage, the 9-cell board, whose turn it
is, the joined players and the append-only event history. -/
structure GameState where
  stage : Stage
  board : List Tile
  active_player_id : PlayerId
  players : List (PlayerId × Player)
  history : List GameEvent
deriving DecidableEq, Repr

/-- `HashMap::contains_key` on the association-list model. -/
def containsKey (ps : List (PlayerId × Player)) (k : PlayerId) : Bool :=
  ps.any (fun pr => pr.1 = k)

/-- `HashMap::get` on the association-list model: the value at the first
entry carrying the key. -/
def lookup? (ps : List (PlayerId × Player)) (k : PlayerId) : Option Player :=
  (ps.find? (fun pr => pr.1 = k)).map (fun pr => pr.2)

/-- `HashMap::insert` on the association-list model: replace the entry in
place when the key is present, append a fresh entry otherwise. -/
def hmInsert (ps : List (PlayerId × Player)) (k : PlayerId) (v : Player) :
    List (PlayerId × Player) :=
  if containsKey ps k then
    ps.map (fun pr => if pr.1 = k then (k, v) else pr)
  else
    ps ++ [(k, v)]

/-- `HashMap::remove` on the association-list model. -/
def hmRemove (ps : List (PlayerId × Player)) (k : PlayerId) :
    List (PlayerId × Player) :=
  ps.filter (fun pr => pr.1 ≠ k)

/-- `GameState::default()`: pre-game stage, nine empty cells, active player
id 0, no players, empty history. -/
def GameState.default : GameState where
  stage := Stage.PreGame
  board := [Tile.Empty, Tile.Empty, Tile.Empty, Tile.Empty, Tile.Empty,
            Tile.Empty, Tile.Empty, Tile.Empty, Tile.Empty]
  active_player_id := 0
  players := []
  history := []

/-- `GameState::validate`: determines whether an event is valid considering
the current game state. Mirrors the source case by case, including the
`BeginGame` arm where the variable named `player_is_unknown` is in fact
assigned `contains_key(goes_first)`. -/
def GameState.validate (s : GameState) (event : GameEvent) : Bool :=
  match event with
  | .BeginGame goes_first =>
      let player_is_unknown := containsKey s.players goes_first
      if s.stage ≠ Stage.PreGame || player_is_unknown then false else true
  | .EndGame reason =>
      match reason with
      | .PlayerWon _ => if s.stage ≠ Stage.InGame then false else true
      | _ => true
  | .PlayerJoined player_id _ =>
      if containsKey s.players player_id then false else true
  | .PlayerDisconnected player_id =>
      if ¬ containsKey s.players player_id then false else true
  | .PlaceTile player_id i =>
      if ¬ containsKey s.players player_id then false
      else if s.active_player_id ≠ player_id then false
      else if i > 8 then false
      else if s.board.getD i Tile.Empty ≠ Tile.Empty then false
      else true

/-- `GameState::get_player_tile`: a player's tile, if the player is known. -/
def GameState.get_player_tile (s : GameState) (player_id : PlayerId) :
    Option Tile :=
  (lookup? s.players player_id).map (fun p => p.piece)

/-- `GameState::consume`: consumes an event, modifying the state and
appending the event to its history. `none` models a Rust panic: the
`unwrap` on the acting player's piece, the indexed write to `board`, and
the `unwrap` on the other-player lookup in the `PlaceTile` arm. -/
def GameState.consume (s : GameState) (valid_event : GameEvent) :
    Option GameState :=
  let core : Option GameState :=
    match valid_event with
    | .BeginGame goes_first =>
        some { s with active_player_id := goes_first, stage := Stage.InGame }
    | .EndGame _ => some { s with stage := Stage.Ended }
    | .PlayerJoined player_id name =>
        let piece := if s.players.length > 0 then Tile.Tac else Tile.Tic
        some { s with players := hmInsert s.players player_id ⟨name, piece⟩ }
    | .PlayerDisconnected player_id =>
        some { s with players := hmRemove s.players player_id }
    | .PlaceTile player_id i =>
        match s.get_player_tile player_id with
        | none => none
        | some piece =>
            if i < s.board.length then
              match s.players.find? (fun pr => pr.1 ≠ player_id) with
              | none => none
              | some other =>
                  some { s with board := s.board.set i piece,
                                active_player_id := other.1 }
            else none
  core.map (fun s2 => { s2 with history := s2.history ++ [valid_event] })

/-- The 8 index triples scanned by the win detector, in source order:
rows, then columns, then diagonals. -/
def winLines : List (Nat × Nat × Nat) :=
  [(0, 1, 2), (3, 4, 5), (6, 7, 8),
   (0, 3, 6), (1, 4, 7), (2, 5, 8),
   (0, 4, 8), (2, 4, 6)]

/-- The loop body of `GameState::determine_winner` over the remaining index
triples: read the three tiles, test `all_are_the_same` exactly as the
source does (`tiles.get(0).map(..).unwrap_or(true)`), and on success look
for a player whose piece equals the first cell of the line. -/
def winnerForLines (s : GameState) : List (Nat × Nat × Nat) → Option PlayerId
  | [] => none
  | (a, b, c) :: rest =>
      let tiles := [s.board.getD a Tile.Empty, s.board.getD b Tile.Empty,
                    s.board.getD c Tile.Empty]
      let all_are_the_same :=
        ((tiles.get? 0).map (fun first => tiles.all (fun x => x = first))).getD
          true
      if all_are_the_same then
        match s.players.find? (fun pr => pr.2.piece = s.board.getD a Tile.Empty)
          with
        | some w => some w.1
        | none => winnerForLines s rest
      else winnerForLines s rest

/-- `GameState::determine_winner`: determines if someone has won the game. -/
def GameState.determine_winner (s : GameState) : Option PlayerId :=
  winnerForLines s winLines

/-- Consume a list of events in order, propagating failure (a panic aborts
the whole run). -/
def consumeAll (s : GameState) : List GameEvent → Option GameState
  | [] => some s
  | e :: es => (s.consume e).bind (fun s2 => consumeAll s2 es)

/-- Validate-then-consume a list of events in order: every event must be
accepted by the validator in the state it is consumed from. -/
def consumeValidAll (s : GameState) : List GameEvent → Option GameState
  | [] => some s
  | e :: es =>
      if s.validate e then (s.consume e).bind (fun s2 => consumeValidAll s2 es)
      else none

/-- Observing two calls of the validator on identical inputs together with
the state they leave behind: in the source, `validate` takes `&self` and
returns only a boolean. -/
def validateTwice (s : GameState) (e : GameEvent) : Bool × Bool × GameState :=
  let r1 := s.validate e
  let r2 := s.validate e
  (r1, r2, s)

/-! ### Helper lemmas about the association-list model -/

theorem containsKey_iff (ps : List (PlayerId × Player)) (k : PlayerId) :
    containsKey ps k = true ↔ ∃ pr ∈ ps, pr.1 = k := by
  simp [containsKey, List.any_eq_true]

theorem lookup?_isSome_of_containsKey {ps : List (PlayerId × Player)}
    {k : PlayerId} (h : containsKey ps k = true) : (lookup? ps k).isSome = true := by
  rcases (containsKey_iff ps k).1 h with ⟨pr, hmem, hk⟩
  simp only [lookup?, Option.isSome_map']
  exact List.find?_isSome.2 ⟨pr, hmem, by simp [hk]⟩

/-- `consume` always appends exactly the consumed event to the history and
touches the history in no other way. -/
theorem consume_history (s : GameState) (e : GameEvent) (s2 : GameState)
    (h : s.consume e = some s2) : s2.history = s.history ++ [e] := by
  cases e with
  | BeginGame goes_first =>
      simp only [GameState.consume, Option.map_eq_some'] at h
      obtain ⟨a, ha, rfl⟩ := h
      cases ha; rfl
  | EndGame reason =>
      simp only [GameState.consume, Option.map_eq_some'] at h
      obtain ⟨a, ha, rfl⟩ := h
      cases ha; rfl
  | PlayerJoined player_id name =>
      simp only [GameState.consume, Option.map_eq_some'] at h
      obtain ⟨a, ha, rfl⟩ := h
      cases ha; rfl
  | PlayerDisconnected player_id =>
      simp only [GameState.consume, Option.map_eq_some'] at h
      obtain ⟨a, ha, rfl⟩ := h
      cases ha; rfl
  | PlaceTile player_id i =>
      simp only [GameState.consume, Option.map_eq_some'] at h
      obtain ⟨a, ha, rfl⟩ := h
      suffices hh : a.history = s.history by simp [hh]
      split at ha
      · cases ha
      · split at ha
        · split at ha
          · cases ha
          · cases ha; rfl
        · cases ha

/-- `consumeAll` leaves the starting history as a prefix and appends the
consumed events in order. -/
theorem consumeAll_history (es : List GameEvent) :
    ∀ (s s2 : GameState), consumeAll s es = some s2 →
      s2.history = s.history ++ es := by
  induction es with
  | nil => intro s s2 h; simp only [consumeAll] at h; cases h; simp
  | cons e es ih =>
      intro s s2 h
      simp only [consumeAll, Option.bind_eq_some] at h
      obtain ⟨s1, h1, h2⟩ := h
      rw [ih s1 s2 h2, consume_history s e s1 h1, List.append_assoc]
      rfl

/-! ### Claim C1 — PlaceTile validation -/

/-- Claim C1: for every game state with its 9-cell board and every
`PlaceTile` event, `validate` returns `true` exactly when the acting player
is known, it is that player's turn, the index is in range `[0,8]`, and the
addressed board cell is `Empty`; it returns `false` as soon as any of the
four rejection conditions holds. -/
theorem validate_PlaceTile_iff (s : GameState) (player_id : PlayerId)
    (i : Nat) (hb : s.board.length = 9) :
    s.validate (.PlaceTile player_id i) = true ↔
      (containsKey s.players player_id = true ∧
        s.active_player_id = player_id ∧ i ≤ 8 ∧
        s.board[i]? = some Tile.Empty) := by
  simp only [GameState.validate]
  constructor
  · intro h
    by_cases h1 : containsKey s.players player_id = true
    case neg => rw [if_pos h1] at h; exact Bool.noConfusion h
    by_cases h2 : s.active_player_id = player_id
    case neg =>
      rw [if_neg (by simpa using h1), if_pos h2] at h
      exact Bool.noConfusion h
    by_cases h3 : i > 8
    case pos =>
      rw [if_neg (by simpa using h1), if_neg (by simpa using h2),
        if_pos h3] at h
      exact Bool.noConfusion h
    by_cases h4 : s.board.getD i Tile.Empty = Tile.Empty
    case neg =>
      rw [if_neg (by simpa using h1), if_neg (by simpa using h2),
        if_neg h3, if_pos h4] at h
      exact Bool.noConfusion h
    refine ⟨h1, h2, by omega, ?_⟩
    have hlt : i < s.board.length := by omega
    rcases hcell : s.board[i]? with _ | c
    · rw [List.getElem?_eq_none_iff] at hcell; omega
    · rw [List.getD_eq_getElem?_getD, hcell] at h4
      simp only [Option.getD_some] at h4
      rw [h4]
  · rintro ⟨h1, h2, h3, h4⟩
    have h5 : ¬ i > 8 := by omega
    have h6 : s.board.getD i Tile.Empty = Tile.Empty := by
      rw [List.getD_eq_getElem?_getD, h4]; rfl
    rw [if_neg (by simpa using h1), if_neg (by simpa using h2),
      if_neg h5, if_neg (by simpa using h6)]

/-- Witness for C1 at a concrete two-player in-game state. -/
def sTwoInGame : GameState where
  stage := Stage.InGame
  board := [Tile.Empty, Tile.Empty, Tile.Empty, Tile.Empty, Tile.Empty,
            Tile.Empty, Tile.Empty, Tile.Empty, Tile.Empty]
  active_player_id := 1
  players := [(1, ⟨"Alice", Tile.Tic⟩), (2, ⟨"Bob", Tile.Tac⟩)]
  history := []

theorem validate_PlaceTile_iff_witness :
    sTwoInGame.board.length = 9 ∧
      (sTwoInGame.validate (.PlaceTile 1 4) = true ↔
        (containsKey sTwoInGame.players 1 = true ∧
          sTwoInGame.active_player_id = 1 ∧ (4 : Nat) ≤ 8 ∧
          sTwoInGame.board[4]? = some Tile.Empty)) :=
  ⟨by decide, validate_PlaceTile_iff sTwoInGame 1 4 (by decide)⟩

/-! ### Claim C2 — BeginGame validation -/

/-- A pre-game state in which player 1 has joined: the input on which the
`BeginGame` validation diverges from the specification. -/
def sPreGameKnown : GameState where
  stage := Stage.PreGame
  board := [Tile.Empty, Tile.Empty, Tile.Empty, Tile.Empty, Tile.Empty,
            Tile.Empty, Tile.Empty, Tile.Empty, Tile.Empty]
  active_player_id := 0
  players := [(1, ⟨"Alice", Tile.Tic⟩)]
  history := []

/-- Claim C2: the source rejects `BeginGame{goes_first}` exactly when the
spec says it must be accepted. In the pre-game state where player 1 has
joined, `validate` returns `false` for `BeginGame{goes_first: 1}` although
1 is a known player, and returns `true` for `BeginGame{goes_first: 99}`
although 99 is unknown: the local variable named `player_is_unknown` is
assigned `contains_key(goes_first)` without negation. -/
theorem validate_BeginGame_inverted :
    sPreGameKnown.stage = Stage.PreGame ∧
      containsKey sPreGameKnown.players 1 = true ∧
      sPreGameKnown.validate (.BeginGame 1) = false ∧
      containsKey sPreGameKnown.players 99 = false ∧
      sPreGameKnown.validate (.BeginGame 99) = true := by
  decide

/-! ### Claim C7 — history is an append-only log -/

/-- Claim C7: every successful `consume` appends exactly the consumed event
as the new last element of the history, and consuming a list of events from
the default state yields a history listing exactly those events in
consumption order (hence of length N after N consumes). -/
theorem consume_appends_history :
    (∀ (s : GameState) (e : GameEvent) (s2 : GameState),
        s.consume e = some s2 → s2.history = s.history ++ [e]) ∧
      (∀ (es : List GameEvent) (s2 : GameState),
          consumeAll GameState.default es = some s2 →
            s2.history = es ∧ s2.history.length = es.length) := by
  refine ⟨consume_history, fun es s2 h => ?_⟩
  have := consumeAll_history es GameState.default s2 h
  simp only [GameState.default] at this
  simp [this]

/-- Witness for C7: consuming `PlayerJoined{1,"Alice"}` from the default
state produces this state. -/
def sAfterAlice : GameState where
  stage := Stage.PreGame
  board := [Tile.Empty, Tile.Empty, Tile.Empty, Tile.Empty, Tile.Empty,
            Tile.Empty, Tile.Empty, Tile.Empty, Tile.Empty]
  active_player_id := 0
  players := [(1, ⟨"Alice", Tile.Tic⟩)]
  history := [.PlayerJoined 1 "Alice"]

theorem consume_appends_history_witness :
    sAfterAlice.history =
        GameState.default.history ++ [GameEvent.PlayerJoined 1 "Alice"] ∧
      (sAfterAlice.history = [GameEvent.PlayerJoined 1 "Alice"] ∧
        sAfterAlice.history.length = [GameEvent.PlayerJoined 1 "Alice"].length) :=
  ⟨consume_appends_history.1 GameState.default (.PlayerJoined 1 "Alice")
      sAfterAlice (by decide),
    consume_appends_history.2 [.PlayerJoined 1 "Alice"] sAfterAlice (by decide)⟩

/-! ### Claim C9 — the validator is a pure function -/

/-- Claim C9: `validate` is a pure function of the pair (state, event): two
calls on identical inputs return the same boolean, equal inputs give equal
results, and the state observed after validating — every field of it — is
the state passed in. -/
theorem validate_pure (s : GameState) (e : GameEvent) :
    (validateTwice s e).1 = (validateTwice s e).2.1 ∧
      (∀ (s2 : GameState) (e2 : GameEvent), s = s2 → e = e2 →
        s.validate e = s2.validate e2) ∧
      (validateTwice s e).2.2.stage = s.stage ∧
      (validateTwice s e).2.2.board = s.board ∧
      (validateTwice s e).2.2.active_player_id = s.active_player_id ∧
      (validateTwice s e).2.2.players = s.players ∧
      (validateTwice s e).2.2.history = s.history :=
  ⟨rfl, fun _ _ hs he => hs ▸ he ▸ rfl, rfl, rfl, rfl, rfl, rfl⟩

/-! ### Helper lemmas about PlaceTile validation and consumption -/

/-- Elimination form of a successful `PlaceTile` validation. -/
theorem validate_PlaceTile_true_elim {s : GameState} {p : PlayerId} {i : Nat}
    (h : s.validate (.PlaceTile p i) = true) :
    containsKey s.players p = true ∧ s.active_player_id = p ∧ i ≤ 8 ∧
      s.board.getD i Tile.Empty = Tile.Empty := by
  simp only [GameState.validate] at h
  by_cases h1 : containsKey s.players p = true
  case neg => rw [if_pos h1] at h; exact Bool.noConfusion h
  by_cases h2 : s.active_player_id = p
  case neg =>
    rw [if_neg (by simpa using h1), if_pos h2] at h
    exact Bool.noConfusion h
  by_cases h3 : i > 8
  case pos =>
    rw [if_neg (by simpa using h1), if_neg (by simpa using h2), if_pos h3] at h
    exact Bool.noConfusion h
  by_cases h4 : s.board.getD i Tile.Empty = Tile.Empty
  case neg =>
    rw [if_neg (by simpa using h1), if_neg (by simpa using h2), if_neg h3,
      if_pos h4] at h
    exact Bool.noConfusion h
  exact ⟨h1, h2, by omega, h4⟩

/-- Successful `PlaceTile` consumption, fully characterised. -/
theorem consume_PlaceTile_eq (s : GameState) (p : PlayerId) (i : Nat)
    (piece : Tile) (other : PlayerId × Player)
    (hg : s.get_player_tile p = some piece)
    (hi : i < s.board.length)
    (hf : s.players.find? (fun pr => pr.1 ≠ p) = some other) :
    s.consume (.PlaceTile p i) =
      some { s with board := s.board.set i piece,
                    active_player_id := other.1,
                    history := s.history ++ [GameEvent.PlaceTile p i] } := by
  simp only [GameState.consume, hg, if_pos hi, hf, Option.map_some']

/-! ### Claim C3 — two-player alternation -/

/-- Claim C3: in any game state with its 9-cell board whose players mapping
contains exactly the two ids A and B, a `PlaceTile{A, i}` accepted by
`validate` is consumed by writing A's assigned piece into `board[i]` and
handing the turn to B (`active_player_id := B`); by instantiating A and B
the other way around, a valid `PlaceTile{B, i}` writes B's piece and hands
the turn to A. -/
theorem consume_PlaceTile_alternates (s : GameState) (A B : PlayerId)
    (pa : Tile) (i : Nat)
    (hb : s.board.length = 9)
    (hkeys : ∀ k, containsKey s.players k = true ↔ (k = A ∨ k = B))
    (hAB : A ≠ B)
    (hpa : s.get_player_tile A = some pa)
    (hv : s.validate (.PlaceTile A i) = true) :
    s.consume (.PlaceTile A i) =
      some { s with board := s.board.set i pa,
                    active_player_id := B,
                    history := s.history ++ [GameEvent.PlaceTile A i] } := by
  obtain ⟨h1, h2, h3, h4⟩ := validate_PlaceTile_true_elim hv
  have hi : i < s.board.length := by omega
  have hBmem : ∃ pr ∈ s.players, pr.1 = B :=
    (containsKey_iff s.players B).1 ((hkeys B).2 (Or.inr rfl))
  obtain ⟨prB, hprBmem, hprB⟩ := hBmem
  rcases hf : s.players.find? (fun pr => pr.1 ≠ A) with _ | other
  · rw [List.find?_eq_none] at hf
    exact absurd (by simpa using hf prB hprBmem)
      (by simp [hprB]; exact fun hEq => hAB hEq.symm)
  · have hother_ne : other.1 ≠ A := by simpa using List.find?_some hf
    have hother_mem : other ∈ s.players := List.mem_of_find?_eq_some hf
    have hother_key : containsKey s.players other.1 = true :=
      (containsKey_iff s.players other.1).2 ⟨other, hother_mem, rfl⟩
    have hotherB : other.1 = B := by
      rcases (hkeys other.1).1 hother_key with h | h
      · exact absurd h hother_ne
      · exact h
    rw [consume_PlaceTile_eq s A i pa other hpa hi hf, hotherB]

theorem consume_PlaceTile_alternates_witness :
    sTwoInGame.consume (.PlaceTile 1 4) =
      some { sTwoInGame with
             board := sTwoInGame.board.set 4 Tile.Tic,
             active_player_id := 2,
             history := sTwoInGame.history ++ [GameEvent.PlaceTile 1 4] } :=
  consume_PlaceTile_alternates sTwoInGame 1 2 Tile.Tic 4 (by decide)
    (by intro k
        simp [containsKey, sTwoInGame]
        exact ⟨fun h => h.imp Eq.symm Eq.symm, fun h => h.imp Eq.symm Eq.symm⟩)
    (by decide) (by decide) (by decide)

/-! ### Claim C4 — validate does not make PlaceTile consumption safe -/

/-- A game state with a single joined player whose turn it is: `validate`
accepts `PlaceTile{1, 0}` here, yet the reducer's other-player lookup
fails. -/
def sLonePlayer : GameState where
  stage := Stage.InGame
  board := [Tile.Empty, Tile.Empty, Tile.Empty, Tile.Empty, Tile.Empty,
            Tile.Empty, Tile.Empty, Tile.Empty, Tile.Empty]
  active_player_id := 1
  players := [(1, ⟨"Alice", Tile.Tic⟩)]
  history := []

/-- Counterexample to claim C4 as stated: with fewer than 2 players the
validator still accepts `PlaceTile`, and consuming the accepted event
reaches the reducer's no-other-player failure. -/
theorem validate_PlaceTile_not_safe :
    sLonePlayer.players.length < 2 ∧
      sLonePlayer.validate (.PlaceTile 1 0) = true ∧
      sLonePlayer.consume (.PlaceTile 1 0) = none := by decide

/-- Claim C4 (amended): after a successful validate of `PlaceTile{p, i}` on
a game state with its 9-cell board, the lookup of the acting player's piece
does succeed, but `consume` reaches no failure if and only if some player
id different from `p` is present in `players`: the validator does not
reject `PlaceTile` when fewer than 2 players are present, so the reducer's
no-other-player branch is reachable after a successful validate. -/
theorem consume_PlaceTile_succeeds_iff_other (s : GameState) (p : PlayerId)
    (i : Nat) (hb : s.board.length = 9)
    (hv : s.validate (.PlaceTile p i) = true) :
    (s.get_player_tile p).isSome = true ∧
      ((s.consume (.PlaceTile p i)).isSome = true ↔
        ∃ pr ∈ s.players, pr.1 ≠ p) := by
  obtain ⟨h1, h2, h3, h4⟩ := validate_PlaceTile_true_elim hv
  have hi : i < s.board.length := by omega
  have hgp : (s.get_player_tile p).isSome = true := by
    simp only [GameState.get_player_tile, Option.isSome_map']
    exact lookup?_isSome_of_containsKey h1
  refine ⟨hgp, ?_⟩
  rcases hg : s.get_player_tile p with _ | piece
  · rw [hg] at hgp; exact Bool.noConfusion hgp
  · simp only [GameState.consume, hg, if_pos hi, Option.isSome_map']
    rcases hf : s.players.find? (fun pr => pr.1 ≠ p) with _ | other <;> rw [hf]
    · rw [List.find?_eq_none] at hf
      simp only [Option.isSome_none, Bool.false_eq_true, false_iff]
      rintro ⟨pr, hmem, hne⟩
      exact absurd (by simpa using hf pr hmem) (by simpa using hne)
    · simp only [Option.isSome_some, true_iff]
      exact ⟨other, List.mem_of_find?_eq_some hf,
        by simpa using List.find?_some hf⟩

theorem consume_PlaceTile_succeeds_iff_other_witness :
    (sTwoInGame.get_player_tile 1).isSome = true ∧
      ((sTwoInGame.consume (.PlaceTile 1 4)).isSome = true ↔
        ∃ pr ∈ sTwoInGame.players, pr.1 ≠ 1) :=
  consume_PlaceTile_succeeds_iff_other sTwoInGame 1 4 (by decide) (by decide)

/-! ### Helper lemmas about the players mapping under insertion and removal -/

/-- After inserting key `k` with value `v`, looking `k` up yields `v`. -/
theorem lookup?_hmInsert (ps : List (PlayerId × Player)) (k : PlayerId)
    (v : Player) : lookup? (hmInsert ps k v) k = some v := by
  unfold hmInsert
  by_cases hc : containsKey ps k = true
  · rw [if_pos hc]
    induction ps with
    | nil => exact Bool.noConfusion hc
    | cons pr ps ih =>
        by_cases hk : pr.1 = k
        · simp [lookup?, List.find?_cons_of_pos, hk]
        · have hc' : containsKey ps k = true := by
            simp only [containsKey, List.any_cons, Bool.or_eq_true] at hc
            rcases hc with h | h
            · exact absurd (by simpa using h) hk
            · exact h
          rw [List.map_cons, if_neg hk]
          unfold lookup?
          rw [List.find?_cons_of_neg _ (by simpa using hk)]
          simpa [lookup?] using ih hc'
  · rw [if_neg hc]
    have hnone : ps.find? (fun pr => pr.1 = k) = none := by
      rw [List.find?_eq_none]
      intro pr hmem hpk
      exact hc ((containsKey_iff ps k).2 ⟨pr, hmem, by simpa using hpk⟩)
    simp [lookup?, List.find?_append, hnone]

/-- Inserting a fresh key does not disturb the value found at any key that
was already present. -/
theorem lookup?_hmInsert_fresh {ps : List (PlayerId × Player)}
    {k : PlayerId} (v : Player) (pid : PlayerId) (pl : Player)
    (hc : containsKey ps k = false) (hl : lookup? ps pid = some pl) :
    lookup? (hmInsert ps k v) pid = some pl := by
  unfold hmInsert
  rw [if_neg (by simp [hc])]
  rcases hfind : ps.find? (fun pr => pr.1 = pid) with _ | pr0
  · rw [lookup?, hfind] at hl; exact Option.noConfusion hl
  · simp [lookup?, List.find?_append, hfind]
    rw [lookup?, hfind] at hl
    simpa using hl

/-- Finding with a predicate that entails the filter predicate commutes
with filtering. -/
theorem find?_filter_of_imp {α : Type} (l : List α) (q f : α → Bool)
    (h : ∀ x, q x = true → f x = true) :
    (l.filter f).find? q = l.find? q := by
  induction l with
  | nil => rfl
  | cons x l ih =>
      by_cases hf : f x = true
      · rw [List.filter_cons_of_pos hf]
        by_cases hq : q x = true
        · rw [List.find?_cons_of_pos _ hq, List.find?_cons_of_pos _ hq]
        · rw [List.find?_cons_of_neg _ hq, List.find?_cons_of_neg _ hq]
          exact ih
      · rw [List.filter_cons_of_neg hf]
        have hq : ¬ q x = true := fun hq => hf (h x hq)
        rw [List.find?_cons_of_neg _ hq]
        exact ih


/-! ### Equation lemmas for the total branches of the reducer -/

theorem consume_BeginGame_eq (s : GameState) (g : PlayerId) :
    s.consume (.BeginGame g) =
      some { s with active_player_id := g, stage := Stage.InGame,
                    history := s.history ++ [GameEvent.BeginGame g] } := rfl

theorem consume_EndGame_eq (s : GameState) (r : EndGameReason) :
    s.consume (.EndGame r) =
      some { s with stage := Stage.Ended,
                    history := s.history ++ [GameEvent.EndGame r] } := rfl

theorem consume_PlayerJoined_eq (s : GameState) (pid : PlayerId)
    (name : String) :
    s.consume (.PlayerJoined pid name) =
      some { s with players := hmInsert s.players pid
                      ⟨name, if s.players.length > 0 then Tile.Tac
                             else Tile.Tic⟩,
                    history := s.history ++ [GameEvent.PlayerJoined pid name] }
  := rfl

theorem consume_PlayerDisconnected_eq (s : GameState) (pid : PlayerId) :
    s.consume (.PlayerDisconnected pid) =
      some { s with players := hmRemove s.players pid,
                    history := s.history ++
                      [GameEvent.PlayerDisconnected pid] } := rfl

/-- A consumed `PlaceTile` never touches the players mapping. -/
theorem consume_PlaceTile_players (s : GameState) (p : PlayerId) (i : Nat)
    (s2 : GameState) (h : s.consume (.PlaceTile p i) = some s2) :
    s2.players = s.players := by
  simp only [GameState.consume, Option.map_eq_some'] at h
  obtain ⟨a, ha, rfl⟩ := h
  show a.players = s.players
  split at ha
  · exact Option.noConfusion ha
  · split at ha
    · split at ha
      · exact Option.noConfusion ha
      · cases ha; rfl
    · exact Option.noConfusion ha

/-! ### Claim C6 — piece assignment on join, and piece stability -/

/-- The piece kind assigned to the first player to join (`Tic` in the
source's `consume`, the `players.len() == 0` branch). -/
def firstMark : Tile := Tile.Tic

/-- The piece kind assigned to every later joiner (`Tac` in the source's
`consume`, the `players.len() > 0` branch). -/
def secondMark : Tile := Tile.Tac

/-- Claim C6: consuming `PlayerJoined{player_id, name}` inserts a player
whose piece is the first mark kind when `players` was empty at insertion
time and the second mark kind otherwise; the join sequence
`PlayerJoined{1,"Alice"}`, `PlayerJoined{2,"Bob"}` from the default state
yields two players with player 1 holding the first kind and player 2 the
second; and a validated consume of any further event never changes the
piece of a player that stays present. -/
theorem playerJoined_piece_assignment :
    (∀ (s : GameState) (player_id : PlayerId) (name : String)
        (s2 : GameState),
        s.consume (.PlayerJoined player_id name) = some s2 →
          lookup? s2.players player_id =
            some ⟨name, if s.players = [] then firstMark else secondMark⟩) ∧
      ((consumeAll GameState.default
          [.PlayerJoined 1 "Alice", .PlayerJoined 2 "Bob"]).map
          (fun s => (s.players.length, s.get_player_tile 1,
            s.get_player_tile 2)) =
        some (2, some firstMark, some secondMark)) ∧
      (∀ (s : GameState) (e : GameEvent) (s2 : GameState) (pid : PlayerId)
          (pl pl2 : Player),
          s.validate e = true → s.consume e = some s2 →
          lookup? s.players pid = some pl →
          lookup? s2.players pid = some pl2 → pl2.piece = pl.piece) := by
  refine ⟨?_, by decide, ?_⟩
  · intro s player_id name s2 h
    rw [consume_PlayerJoined_eq] at h
    obtain rfl := (Option.some.inj h).symm
    have hlk : lookup? (hmInsert s.players player_id
        ⟨name, if s.players.length > 0 then Tile.Tac else Tile.Tic⟩)
        player_id = some ⟨name, if s.players.length > 0 then Tile.Tac
          else Tile.Tic⟩ := lookup?_hmInsert _ _ _
    have hsame : (if s.players.length > 0 then Tile.Tac else Tile.Tic) =
        (if s.players = [] then firstMark else secondMark) := by
      rcases s.players with _ | ⟨pr, rest⟩ <;> simp [firstMark, secondMark]
    rw [← hsame]
    exact hlk
  · intro s e s2 pid pl pl2 hv h hl hl2
    cases e with
    | BeginGame goes_first =>
        rw [consume_BeginGame_eq] at h
        obtain rfl := (Option.some.inj h).symm
        have hl2' : lookup? s.players pid = some pl2 := hl2
        rw [hl] at hl2'
        cases hl2'; rfl
    | EndGame reason =>
        rw [consume_EndGame_eq] at h
        obtain rfl := (Option.some.inj h).symm
        have hl2' : lookup? s.players pid = some pl2 := hl2
        rw [hl] at hl2'
        cases hl2'; rfl
    | PlayerJoined pid2 name =>
        have hfresh : containsKey s.players pid2 = false := by
          simp only [GameState.validate] at hv
          by_cases hc : containsKey s.players pid2 = true
          · rw [if_pos hc] at hv; exact Bool.noConfusion hv
          · simpa using hc
        rw [consume_PlayerJoined_eq] at h
        obtain rfl := (Option.some.inj h).symm
        have hkeep : lookup? (hmInsert s.players pid2
            ⟨name, if s.players.length > 0 then Tile.Tac else Tile.Tic⟩)
            pid = some pl := lookup?_hmInsert_fresh _ pid pl hfresh hl
        have hl2' : lookup? (hmInsert s.players pid2
            ⟨name, if s.players.length > 0 then Tile.Tac else Tile.Tic⟩)
            pid = some pl2 := hl2
        rw [hkeep] at hl2'
        cases hl2'; rfl
    | PlayerDisconnected pid2 =>
        rw [consume_PlayerDisconnected_eq] at h
        obtain rfl := (Option.some.inj h).symm
        have hl2' : lookup? (hmRemove s.players pid2) pid = some pl2 := hl2
        by_cases hpp : pid = pid2
        · subst hpp
          have hnone : (hmRemove s.players pid).find?
              (fun pr => pr.1 = pid) = none := by
            rw [List.find?_eq_none]
            intro pr hmem
            have hkept := (List.mem_filter.1 hmem).2
            simpa using hkept
          rw [lookup?, hnone] at hl2'
          exact Option.noConfusion hl2'
        · have hsame : (hmRemove s.players pid2).find?
              (fun pr => pr.1 = pid) =
              s.players.find? (fun pr => pr.1 = pid) := by
            apply find?_filter_of_imp
            intro pr hq
            have hq' : pr.1 = pid := by simpa using hq
            simp [hq', hpp]
          rw [lookup?, hsame] at hl2'
          rw [lookup?] at hl
          rw [hl] at hl2'
          cases hl2'; rfl
    | PlaceTile pid2 i =>
        have hpres := consume_PlaceTile_players s pid2 i s2 h
        rw [hpres, hl] at hl2
        cases hl2; rfl

/-- The state after `PlayerJoined{1,"Alice"}` then `PlayerJoined{2,"Bob"}`
from the default state. -/
def sAfterBob : GameState where
  stage := Stage.PreGame
  board := [Tile.Empty, Tile.Empty, Tile.Empty, Tile.Empty, Tile.Empty,
            Tile.Empty, Tile.Empty, Tile.Empty, Tile.Empty]
  active_player_id := 0
  players := [(1, ⟨"Alice", Tile.Tic⟩), (2, ⟨"Bob", Tile.Tac⟩)]
  history := [.PlayerJoined 1 "Alice", .PlayerJoined 2 "Bob"]

theorem playerJoined_piece_assignment_witness :
    lookup? sAfterAlice.players 1 =
        some ⟨"Alice", if GameState.default.players = [] then firstMark
          else secondMark⟩ ∧
      (⟨"Alice", Tile.Tic⟩ : Player).piece =
        (⟨"Alice", Tile.Tic⟩ : Player).piece :=
  ⟨playerJoined_piece_assignment.1 GameState.default 1 "Alice" sAfterAlice
      (by decide),
    playerJoined_piece_assignment.2.2 sAfterAlice (.PlayerJoined 2 "Bob")
      sAfterBob 1 ⟨"Alice", Tile.Tic⟩ ⟨"Alice", Tile.Tic⟩
      (by decide) (by decide) (by decide) (by decide)⟩

/-! ### Helper lemmas about the board under consumption -/

/-- The reducer never changes the number of board cells. -/
theorem consume_board_length (s : GameState) (e : GameEvent) (s2 : GameState)
    (h : s.consume e = some s2) : s2.board.length = s.board.length := by
  cases e with
  | BeginGame g =>
      rw [consume_BeginGame_eq] at h; obtain rfl := (Option.some.inj h).symm
      rfl
  | EndGame r =>
      rw [consume_EndGame_eq] at h; obtain rfl := (Option.some.inj h).symm
      rfl
  | PlayerJoined p n =>
      rw [consume_PlayerJoined_eq] at h; obtain rfl := (Option.some.inj h).symm
      rfl
  | PlayerDisconnected p =>
      rw [consume_PlayerDisconnected_eq] at h
      obtain rfl := (Option.some.inj h).symm
      rfl
  | PlaceTile p j =>
      simp only [GameState.consume, Option.map_eq_some'] at h
      obtain ⟨a, ha, rfl⟩ := h
      show a.board.length = s.board.length
      split at ha
      · exact Option.noConfusion ha
      · split at ha
        · split at ha
          · exact Option.noConfusion ha
          · cases ha; exact List.length_set s.board j _
        · exact Option.noConfusion ha

/-- A validated consume never erases a non-Empty board cell. -/
theorem consume_valid_board_preserve (s : GameState) (e : GameEvent)
    (s2 : GameState) (hv : s.validate e = true) (h : s.consume e = some s2)
    (i : Nat) (hne : s.board.getD i Tile.Empty ≠ Tile.Empty) :
    s2.board.getD i Tile.Empty = s.board.getD i Tile.Empty := by
  cases e with
  | BeginGame g =>
      rw [consume_BeginGame_eq] at h; obtain rfl := (Option.some.inj h).symm
      rfl
  | EndGame r =>
      rw [consume_EndGame_eq] at h; obtain rfl := (Option.some.inj h).symm
      rfl
  | PlayerJoined p n =>
      rw [consume_PlayerJoined_eq] at h; obtain rfl := (Option.some.inj h).symm
      rfl
  | PlayerDisconnected p =>
      rw [consume_PlayerDisconnected_eq] at h
      obtain rfl := (Option.some.inj h).symm
      rfl
  | PlaceTile p j =>
      obtain ⟨h1, h2, h3, h4⟩ := validate_PlaceTile_true_elim hv
      have hij : i ≠ j := fun hEq => hne (hEq ▸ h4)
      simp only [GameState.consume, Option.map_eq_some'] at h
      obtain ⟨a, ha, rfl⟩ := h
      show a.board.getD i Tile.Empty = s.board.getD i Tile.Empty
      split at ha
      · exact Option.noConfusion ha
      · split at ha
        · split at ha
          · exact Option.noConfusion ha
          · cases ha
            show (s.board.set j _).getD i Tile.Empty = _
            rw [List.getD_eq_getElem?_getD, List.getD_eq_getElem?_getD,
              List.getElem?_set_ne (Ne.symm hij)]
        · exact Option.noConfusion ha

/-- The only cell a validated consume can change is the one addressed by a
`PlaceTile` event, it was `Empty` before, and its new value is the acting
player's piece. -/
theorem consume_valid_board_change (s : GameState) (e : GameEvent)
    (s2 : GameState) (hv : s.validate e = true) (h : s.consume e = some s2)
    (i : Nat) (hch : s2.board.getD i Tile.Empty ≠ s.board.getD i Tile.Empty) :
    s.board.getD i Tile.Empty = Tile.Empty ∧
      ∃ p, e = .PlaceTile p i ∧
        s.get_player_tile p = some (s2.board.getD i Tile.Empty) := by
  cases e with
  | BeginGame g =>
      rw [consume_BeginGame_eq] at h; obtain rfl := (Option.some.inj h).symm
      exact absurd rfl hch
  | EndGame r =>
      rw [consume_EndGame_eq] at h; obtain rfl := (Option.some.inj h).symm
      exact absurd rfl hch
  | PlayerJoined p n =>
      rw [consume_PlayerJoined_eq] at h; obtain rfl := (Option.some.inj h).symm
      exact absurd rfl hch
  | PlayerDisconnected p =>
      rw [consume_PlayerDisconnected_eq] at h
      obtain rfl := (Option.some.inj h).symm
      exact absurd rfl hch
  | PlaceTile p j =>
      obtain ⟨h1, h2, h3, h4⟩ := validate_PlaceTile_true_elim hv
      simp only [GameState.consume, Option.map_eq_some'] at h
      obtain ⟨a, ha, rfl⟩ := h
      split at ha
      · exact Option.noConfusion ha
      · rename_i piece hg
        split at ha
        · rename_i hlen
          split at ha
          · exact Option.noConfusion ha
          · rename_i other hf
            cases ha
            have hij : i = j := by
              by_contra hne
              apply hch
              show (s.board.set j piece).getD i Tile.Empty = _
              rw [List.getD_eq_getElem?_getD, List.getD_eq_getElem?_getD,
                List.getElem?_set_ne (fun hEq => hne hEq.symm)]
            subst hij
            refine ⟨h4, p, rfl, ?_⟩
            show s.get_player_tile p =
              some ((s.board.set i piece).getD i Tile.Empty)
            rw [List.getD_eq_getElem?_getD, List.getElem?_set_self hlen,
              Option.getD_some]
            exact hg
        · exact Option.noConfusion ha

/-- Board length is invariant along a validated run. -/
theorem consumeValidAll_board_length (es : List GameEvent) :
    ∀ (s s2 : GameState), consumeValidAll s es = some s2 →
      s2.board.length = s.board.length := by
  induction es with
  | nil =>
      intro s s2 h
      simp only [consumeValidAll] at h
      obtain rfl := (Option.some.inj h).symm
      rfl
  | cons e es ih =>
      intro s s2 h
      simp only [consumeValidAll] at h
      split at h
      · rw [Option.bind_eq_some] at h
        obtain ⟨s1, h1, h2⟩ := h
        rw [ih s1 s2 h2, consume_board_length s e s1 h1]
      · exact Option.noConfusion h

/-- A non-Empty board cell keeps its value through every later state of a
validated run. -/
theorem consumeValidAll_board_persist (es : List GameEvent) :
    ∀ (s s2 : GameState), consumeValidAll s es = some s2 → ∀ i : Nat,
      s.board.getD i Tile.Empty ≠ Tile.Empty →
      s2.board.getD i Tile.Empty = s.board.getD i Tile.Empty := by
  induction es with
  | nil =>
      intro s s2 h i hne
      simp only [consumeValidAll] at h
      obtain rfl := (Option.some.inj h).symm
      rfl
  | cons e es ih =>
      intro s s2 h i hne
      simp only [consumeValidAll] at h
      split at h
      · rw [Option.bind_eq_some] at h
        obtain ⟨s1, h1, h2⟩ := h
        have hstep := consume_valid_board_preserve s e s1 (by assumption) h1
          i hne
        rw [ih s1 s2 h2 i (by rw [hstep]; exact hne), hstep]
      · exact Option.noConfusion h

/-! ### Claim C8 — the board has 9 cells and cells are write-once -/

/-- Claim C8: in every state reachable from the default state by a
validate-then-consume sequence, the board has exactly 9 cells; a non-Empty
cell keeps its value through every later state of the sequence; and a
validated step changes a cell only if the event is a `PlaceTile` addressed
at that cell, the cell was `Empty` before, and the new value is the acting
player's piece. -/
theorem board_cells_monotone :
    ∀ (es : List GameEvent) (s2 : GameState),
      consumeValidAll GameState.default es = some s2 →
        s2.board.length = 9 ∧
        (∀ (es2 : List GameEvent) (s3 : GameState),
            consumeValidAll s2 es2 = some s3 → ∀ i : Nat,
              s2.board.getD i Tile.Empty ≠ Tile.Empty →
              s3.board.getD i Tile.Empty = s2.board.getD i Tile.Empty) ∧
        (∀ (e : GameEvent) (s3 : GameState) (i : Nat),
            s2.validate e = true → s2.consume e = some s3 →
            s3.board.getD i Tile.Empty ≠ s2.board.getD i Tile.Empty →
              s2.board.getD i Tile.Empty = Tile.Empty ∧
              ∃ p, e = .PlaceTile p i ∧
                s2.get_player_tile p = some (s3.board.getD i Tile.Empty)) := by
  intro es s2 h
  refine ⟨?_, fun es2 s3 h2 i hne =>
      consumeValidAll_board_persist es2 s2 s3 h2 i hne,
    fun e s3 i hv hc hch =>
      consume_valid_board_change s2 e s3 hv hc i hch⟩
  rw [consumeValidAll_board_length es GameState.default s2 h]
  rfl

theorem board_cells_monotone_witness :
    GameState.default.board.length = 9 ∧
      (∀ (es2 : List GameEvent) (s3 : GameState),
          consumeValidAll GameState.default es2 = some s3 → ∀ i : Nat,
            GameState.default.board.getD i Tile.Empty ≠ Tile.Empty →
            s3.board.getD i Tile.Empty =
              GameState.default.board.getD i Tile.Empty) ∧
      (∀ (e : GameEvent) (s3 : GameState) (i : Nat),
          GameState.default.validate e = true →
          GameState.default.consume e = some s3 →
          s3.board.getD i Tile.Empty ≠
            GameState.default.board.getD i Tile.Empty →
            GameState.default.board.getD i Tile.Empty = Tile.Empty ∧
            ∃ p, e = .PlaceTile p i ∧
              GameState.default.get_player_tile p =
                some (s3.board.getD i Tile.Empty)) :=
  board_cells_monotone [] GameState.default rfl

/-! ### Helper lemmas for the players-pieces invariant -/

/-- Membership in an insertion: an old entry or the inserted pair. -/
theorem mem_hmInsert {ps : List (PlayerId × Player)} {k : PlayerId}
    {v : Player} {pr : PlayerId × Player} (h : pr ∈ hmInsert ps k v) :
    pr ∈ ps ∨ pr = (k, v) := by
  unfold hmInsert at h
  by_cases hc : containsKey ps k = true
  · rw [if_pos hc] at h
    rcases List.mem_map.1 h with ⟨q, hq, hfq⟩
    by_cases hk : q.1 = k
    · right; rw [← hfq, if_pos hk]
    · left; rw [← hfq, if_neg hk]; exact hq
  · rw [if_neg hc] at h
    rcases List.mem_append.1 h with h | h
    · exact Or.inl h
    · right; simpa using h

/-- The reducer only ever stores players whose piece is `Tic` or `Tac`. -/
theorem consume_pieces_nonEmpty (s : GameState) (e : GameEvent)
    (s2 : GameState) (h : s.consume e = some s2)
    (hinv : ∀ pr ∈ s.players, pr.2.piece ≠ Tile.Empty) :
    ∀ pr ∈ s2.players, pr.2.piece ≠ Tile.Empty := by
  cases e with
  | BeginGame g =>
      rw [consume_BeginGame_eq] at h; obtain rfl := (Option.some.inj h).symm
      exact hinv
  | EndGame r =>
      rw [consume_EndGame_eq] at h; obtain rfl := (Option.some.inj h).symm
      exact hinv
  | PlayerJoined p n =>
      rw [consume_PlayerJoined_eq] at h; obtain rfl := (Option.some.inj h).symm
      intro pr hpr
      have hpr2 : pr ∈ hmInsert s.players p
          ⟨n, if s.players.length > 0 then Tile.Tac else Tile.Tic⟩ := hpr
      rcases mem_hmInsert hpr2 with hmem | hEq
      · exact hinv pr hmem
      · rw [hEq]
        by_cases hl : s.players.length > 0 <;> simp [hl]
  | PlayerDisconnected p =>
      rw [consume_PlayerDisconnected_eq] at h
      obtain rfl := (Option.some.inj h).symm
      intro pr hpr
      have hpr2 : pr ∈ hmRemove s.players p := hpr
      exact hinv pr (List.mem_filter.1 hpr2).1
  | PlaceTile p j =>
      have hpl := consume_PlaceTile_players s p j s2 h
      rw [hpl]
      exact hinv

/-- The players-pieces invariant is preserved along any run of consumes. -/
theorem consumeAll_pieces_nonEmpty (es : List GameEvent) :
    ∀ (s s2 : GameState), consumeAll s es = some s2 →
      (∀ pr ∈ s.players, pr.2.piece ≠ Tile.Empty) →
      ∀ pr ∈ s2.players, pr.2.piece ≠ Tile.Empty := by
  induction es with
  | nil =>
      intro s s2 h hinv
      simp only [consumeAll] at h
      obtain rfl := (Option.some.inj h).symm
      exact hinv
  | cons e es ih =>
      intro s s2 h hinv
      simp only [consumeAll, Option.bind_eq_some] at h
      obtain ⟨s1, h1, h2⟩ := h
      exact ih s1 s2 h2 (consume_pieces_nonEmpty s e s1 h1 hinv)

/-- Elimination form of a winner reported by the scanning loop: there is a
line in the scanned list whose three cells agree, and the reported id is a
stored player whose piece equals that line's first cell. -/
theorem winnerForLines_some_elim (s : GameState) :
    ∀ (L : List (Nat × Nat × Nat)) (w : PlayerId),
      winnerForLines s L = some w →
      ∃ t ∈ L, ∃ pr ∈ s.players, pr.1 = w ∧
        pr.2.piece = s.board.getD t.1 Tile.Empty ∧
        s.board.getD t.2.1 Tile.Empty = s.board.getD t.1 Tile.Empty ∧
        s.board.getD t.2.2 Tile.Empty = s.board.getD t.1 Tile.Empty := by
  intro L
  induction L with
  | nil => intro w h; exact Option.noConfusion h
  | cons t rest ih =>
      obtain ⟨a, b, c⟩ := t
      intro w h
      simp only [winnerForLines] at h
      split at h
      · rename_i hall
        split at h
        · rename_i pr0 hf
          obtain rfl := (Option.some.inj h).symm
          have hmem := List.mem_of_find?_eq_some hf
          have hpiece : pr0.2.piece = s.board.getD a Tile.Empty := by
            simpa using List.find?_some hf
          simp only [List.get?, Option.map_some', Option.getD_some,
            List.all_cons, List.all_nil, Bool.and_eq_true,
            decide_eq_true_eq, and_true] at hall
          exact ⟨(a, b, c), List.mem_cons_self _ _, pr0, hmem, rfl, hpiece,
            hall.2.1, hall.2.2⟩
        · rcases ih w h with ⟨t2, ht2, rest2⟩
          exact ⟨t2, List.mem_cons_of_mem _ ht2, rest2⟩
      · rcases ih w h with ⟨t2, ht2, rest2⟩
        exact ⟨t2, List.mem_cons_of_mem _ ht2, rest2⟩

/-! ### Claim C10 — stored pieces are never Empty -/

/-- Claim C10: in every state reachable from the default state by any run
of consumes, every stored player's piece differs from `Empty`; hence
`get_player_tile` never returns `Some(Empty)`, and a winner reported by
`determine_winner` is always a stored player with a non-Empty piece whose
piece fills the reported line — never a line of Empty cells. -/
theorem players_pieces_nonEmpty :
    ∀ (es : List GameEvent) (s2 : GameState),
      consumeAll GameState.default es = some s2 →
        (∀ pr ∈ s2.players, pr.2.piece ≠ Tile.Empty) ∧
        (∀ pid : PlayerId, s2.get_player_tile pid ≠ some Tile.Empty) ∧
        (∀ w : PlayerId, s2.determine_winner = some w →
          ∃ pr ∈ s2.players, pr.1 = w ∧ pr.2.piece ≠ Tile.Empty ∧
            ∃ t ∈ winLines,
              s2.board.getD t.1 Tile.Empty = pr.2.piece ∧
              s2.board.getD t.2.1 Tile.Empty = pr.2.piece ∧
              s2.board.getD t.2.2 Tile.Empty = pr.2.piece) := by
  intro es s2 h
  have hinv : ∀ pr ∈ s2.players, pr.2.piece ≠ Tile.Empty :=
    consumeAll_pieces_nonEmpty es GameState.default s2 h
      (by intro pr hpr; exact absurd hpr (List.not_mem_nil pr))
  refine ⟨hinv, ?_, ?_⟩
  · intro pid hsome
    unfold GameState.get_player_tile lookup? at hsome
    rcases hfind : s2.players.find? (fun pr => pr.1 = pid) with _ | pr0 <;>
      rw [hfind] at hsome
    · exact Option.noConfusion hsome
    · simp only [Option.map_some'] at hsome
      exact hinv pr0 (List.mem_of_find?_eq_some hfind)
        (Option.some.inj hsome)
  · intro w hw
    obtain ⟨t, ht, pr, hprmem, hprw, hpa, hba, hca⟩ :=
      winnerForLines_some_elim s2 winLines w hw
    exact ⟨pr, hprmem, hprw, hinv pr hprmem, t, ht, hpa.symm,
      by rw [hba]; exact hpa.symm, by rw [hca]; exact hpa.symm⟩

theorem players_pieces_nonEmpty_witness :
    (∀ pr ∈ sAfterAlice.players, pr.2.piece ≠ Tile.Empty) ∧
      (∀ pid : PlayerId, sAfterAlice.get_player_tile pid ≠
        some Tile.Empty) ∧
      (∀ w : PlayerId, sAfterAlice.determine_winner = some w →
        ∃ pr ∈ sAfterAlice.players, pr.1 = w ∧ pr.2.piece ≠ Tile.Empty ∧
          ∃ t ∈ winLines,
            sAfterAlice.board.getD t.1 Tile.Empty = pr.2.piece ∧
            sAfterAlice.board.getD t.2.1 Tile.Empty = pr.2.piece ∧
            sAfterAlice.board.getD t.2.2 Tile.Empty = pr.2.piece) :=
  players_pieces_nonEmpty [.PlayerJoined 1 "Alice"] sAfterAlice (by decide)

/-! ### Claim C5 — what the win detector actually returns -/

/-- Spec-side reading: the three cells of an index triple agree. -/
def lineAllSame (s : GameState) (t : Nat × Nat × Nat) : Bool :=
  s.board.getD t.2.1 Tile.Empty = s.board.getD t.1 Tile.Empty &&
    s.board.getD t.2.2 Tile.Empty = s.board.getD t.1 Tile.Empty

/-- Spec-side reading: the player resolved for a line — the first stored
player whose piece equals the line's first cell. -/
def lineOwner (s : GameState) (t : Nat × Nat × Nat) : Option PlayerId :=
  (s.players.find?
      (fun pr => pr.2.piece = s.board.getD t.1 Tile.Empty)).map
    (fun pr => pr.1)

/-- Spec-side reading: a line reports a winner when its cells agree and
some stored player owns the shared tile. -/
def lineWins (s : GameState) (t : Nat × Nat × Nat) : Bool :=
  lineAllSame s t && (lineOwner s t).isSome

/-- One unfolding step of the scanning loop, with the source's
`all_are_the_same` expression rewritten to `lineAllSame`. -/
theorem winnerForLines_cons (s : GameState) (a b c : Nat)
    (rest : List (Nat × Nat × Nat)) :
    winnerForLines s ((a, b, c) :: rest) =
      (if lineAllSame s (a, b, c) = true then
        match s.players.find?
            (fun pr => pr.2.piece = s.board.getD a Tile.Empty) with
        | some w => some w.1
        | none => winnerForLines s rest
      else winnerForLines s rest) := by
  simp only [winnerForLines, List.get?, Option.map_some', Option.getD_some]
  by_cases hb : s.board.getD b Tile.Empty = s.board.getD a Tile.Empty <;>
    by_cases hc : s.board.getD c Tile.Empty = s.board.getD a Tile.Empty <;>
    simp [lineAllSame, hb, hc]

/-- The scanning loop returns the owner of the first winning line. -/
theorem winnerForLines_eq_find (s : GameState) :
    ∀ L : List (Nat × Nat × Nat),
      winnerForLines s L = (L.find? (lineWins s)).bind (lineOwner s) := by
  intro L
  induction L with
  | nil => rfl
  | cons t rest ih =>
      obtain ⟨a, b, c⟩ := t
      rw [winnerForLines_cons]
      by_cases hall : lineAllSame s (a, b, c) = true
      · rw [if_pos hall]
        rcases hf : s.players.find?
            (fun pr => pr.2.piece = s.board.getD a Tile.Empty) with _ | pr0 <;>
          rw [hf]
        · have hlw : lineWins s (a, b, c) = false := by
            unfold lineWins
            show (lineAllSame s (a, b, c) &&
              ((s.players.find?
                  (fun pr => pr.2.piece = s.board.getD a Tile.Empty)).map
                (fun pr => pr.1)).isSome) = false
            rw [hf]
            simp
          rw [List.find?_cons_of_neg _ (by simp [hlw])]
          exact ih
        · have hlw : lineWins s (a, b, c) = true := by
            unfold lineWins
            rw [hall, Bool.true_and]
            show ((s.players.find?
                (fun pr => pr.2.piece = s.board.getD a Tile.Empty)).map
              (fun pr => pr.1)).isSome = true
            rw [hf]
            rfl
          rw [List.find?_cons_of_pos _ hlw]
          show some pr0.1 =
            ((s.players.find?
                (fun pr => pr.2.piece = s.board.getD a Tile.Empty)).map
              (fun pr => pr.1))
          rw [hf]
          rfl
      · rw [if_neg hall]
        have hlw : lineWins s (a, b, c) = false := by
          cases hAS : lineAllSame s (a, b, c)
          · simp [lineWins, hAS]
          · exact absurd hAS hall
        rw [List.find?_cons_of_neg _ (by simp [hlw])]
        exact ih

/-- Reading an all-Empty board anywhere yields `Empty`. -/
theorem getD_replicate_empty (n : Nat) :
    (List.replicate 9 Tile.Empty).getD n Tile.Empty = Tile.Empty := by
  rw [List.getD_eq_getElem?_getD, List.getElem?_replicate]
  by_cases h : n < 9 <;> simp [h]

/-- A game state holding a player whose stored piece is `Empty`: the input
on which `determine_winner` diverges from the claim. -/
def sEmptyPiecePlayer : GameState where
  stage := Stage.PreGame
  board := [Tile.Empty, Tile.Empty, Tile.Empty, Tile.Empty, Tile.Empty,
            Tile.Empty, Tile.Empty, Tile.Empty, Tile.Empty]
  active_player_id := 0
  players := [(7, ⟨"X", Tile.Empty⟩)]
  history := []

/-- Counterexample to claim C5 as stated: the board is all-Empty, so no
triple holds a same non-Empty tile and the claim requires `None`, yet
`determine_winner` returns player 7 — the code never tests a line for
being non-Empty, it only looks for a player whose piece matches the line's
tile, and here a stored player's piece is `Empty`. -/
theorem determine_winner_allEmpty_counterexample :
    sEmptyPiecePlayer.board = List.replicate 9 Tile.Empty ∧
      sEmptyPiecePlayer.determine_winner = some 7 := by decide

/-- Claim C5 (amended): `determine_winner` scans the 8 triples in the order
rows, columns, diagonals and returns the id resolved for the first triple
whose three cells agree and whose shared tile is the piece of some stored
player; it returns `None` when no triple qualifies. On the board
`[Tac,Tac,Tac,Empty,...]` with a stored player owning `Tac` it returns that
player's id; on the all-Empty board it returns `None` provided no stored
player's piece is `Empty`. -/
theorem determine_winner_first_owned_line :
    (∀ s : GameState, s.determine_winner =
        (winLines.find? (lineWins s)).bind (lineOwner s)) ∧
      (∀ s : GameState,
          s.board = [Tile.Tac, Tile.Tac, Tile.Tac, Tile.Empty, Tile.Empty,
            Tile.Empty, Tile.Empty, Tile.Empty, Tile.Empty] →
          ∀ pr : PlayerId × Player,
            s.players.find? (fun q => q.2.piece = Tile.Tac) = some pr →
            s.determine_winner = some pr.1) ∧
      (∀ s : GameState, s.board = List.replicate 9 Tile.Empty →
          (∀ pr ∈ s.players, pr.2.piece ≠ Tile.Empty) →
          s.determine_winner = none) := by
  refine ⟨fun s => winnerForLines_eq_find s winLines, ?_, ?_⟩
  · intro s hboard pr hpr
    show winnerForLines s winLines = some pr.1
    rw [winLines, winnerForLines_cons]
    have h0 : s.board.getD 0 Tile.Empty = Tile.Tac := by rw [hboard]; rfl
    have h1 : s.board.getD 1 Tile.Empty = Tile.Tac := by rw [hboard]; rfl
    have h2 : s.board.getD 2 Tile.Empty = Tile.Tac := by rw [hboard]; rfl
    have hall : lineAllSame s (0, 1, 2) = true := by
      simp only [lineAllSame]
      rw [h0, h1, h2]
      rfl
    rw [if_pos hall]
    have hfind : s.players.find?
        (fun q => q.2.piece = s.board.getD 0 Tile.Empty) = some pr := by
      simp only [h0]
      exact hpr
    rw [hfind]
  · intro s hboard hpieces
    show winnerForLines s winLines = none
    rw [winnerForLines_eq_find]
    have hnone : winLines.find? (lineWins s) = none := by
      rw [List.find?_eq_none]
      intro t ht
      have howner : s.players.find?
          (fun pr => pr.2.piece = s.board.getD t.1 Tile.Empty) = none := by
        rw [List.find?_eq_none]
        intro pr hpr
        simp only [decide_eq_true_eq]
        intro hEq
        apply hpieces pr hpr
        rw [hEq, hboard]
        exact getD_replicate_empty t.1
      unfold lineWins lineOwner
      rw [howner]
      simp
    rw [hnone]
    rfl

/-- A two-player in-game state whose first row is three `Tac` cells,
player 2 owning `Tac`. -/
def sTacRow : GameState where
  stage := Stage.InGame
  board := [Tile.Tac, Tile.Tac, Tile.Tac, Tile.Empty, Tile.Empty,
            Tile.Empty, Tile.Empty, Tile.Empty, Tile.Empty]
  active_player_id := 2
  players := [(1, ⟨"Alice", Tile.Tic⟩), (2, ⟨"Bob", Tile.Tac⟩)]
  history := []

theorem determine_winner_first_owned_line_witness :
    sTacRow.determine_winner =
        (winLines.find? (lineWins sTacRow)).bind (lineOwner sTacRow) ∧
      sTacRow.determine_winner = some 2 ∧
      sTwoInGame.determine_winner = none :=
  ⟨determine_winner_first_owned_line.1 sTacRow,
    determine_winner_first_owned_line.2.1 sTacRow (by decide)
      (2, ⟨"Bob", Tile.Tac⟩) (by decide),
    determine_winner_first_owned_line.2.2 sTwoInGame (by decide) (by decide)⟩
